import Mathlib

/-!
Verification of the document-assembly engine of `feathers-hooks-jsonapify`
(`src/index.js`).  JavaScript values are modelled by the inductive `JSValue`;
objects are ordered association lists of string keys (JS objects preserve
insertion order for string keys, and every construct below is translated
from the corresponding lines of `src/index.js`).  Numbers are modelled as
unbounded integers (`Int`); the single place where JS floating-point
behaviour leaks into an output (`Math.floor(total / limit) * limit` when
`limit = 0`, which produces `NaN`) is modelled explicitly.  Fallible code
paths (property access on `undefined`) return `Except`.
-/

set_option autoImplicit false

/-- Model of a JavaScript value: `undefined`, `null`, booleans, (integer)
numbers, strings, arrays and plain objects as ordered key-value lists. -/
inductive JSValue where
  | undefined
  | null
  | bool (b : Bool)
  | num (n : Int)
  | str (s : String)
  | arr (xs : List JSValue)
  | obj (fields : List (String × JSValue))
deriving Repr

/-- First-match lookup in an object field list; `undefined` when missing
(JS property read on a plain object). -/
def lookupField : List (String × JSValue) → String → JSValue
  | [], _ => .undefined
  | (k', v) :: rest, k => if k' = k then v else lookupField rest k

/-- JS property read `o[k]`: field lookup on objects, `undefined` on every
other value (primitives box without the property; `null`/`undefined` bases
are handled at the call sites that can throw). -/
def jsGet : JSValue → String → JSValue
  | .obj fs, k => lookupField fs k
  | _, _ => .undefined

/-- JS property assignment on a field list: replaces the value in place when
the key exists, otherwise appends the new key at the end (JS insertion
order). -/
def objSetList : List (String × JSValue) → String → JSValue → List (String × JSValue)
  | [], k, v => [(k, v)]
  | (k', v') :: rest, k, v =>
      if k' = k then (k, v) :: rest else (k', v') :: objSetList rest k v

/-- JS property assignment `o[k] = v`; a no-op on non-objects (unreached on
the verified paths). -/
def objSet (o : JSValue) (k : String) (v : JSValue) : JSValue :=
  match o with
  | .obj fs => .obj (objSetList fs k v)
  | other => other

/-- JS `delete o[k]` on a field list. -/
def objDeleteList : List (String × JSValue) → String → List (String × JSValue)
  | [], _ => []
  | (k', v') :: rest, k =>
      if k' = k then objDeleteList rest k else (k', v') :: objDeleteList rest k

/-- JS `delete o[k]`; a no-op on non-objects. -/
def objDelete (o : JSValue) (k : String) : JSValue :=
  match o with
  | .obj fs => .obj (objDeleteList fs k)
  | other => other

/-- Whether a field list carries the given key. -/
def objHasKeyList : List (String × JSValue) → String → Bool
  | [], _ => false
  | (k', _) :: rest, k => if k' = k then true else objHasKeyList rest k

/-- Whether an object value carries the given key (`false` on non-objects). -/
def objHasKey (o : JSValue) (k : String) : Bool :=
  match o with
  | .obj fs => objHasKeyList fs k
  | _ => false

/-- The field list of an object, `[]` on anything else (the shape
`Object.assign` target semantics need on the verified paths). -/
def objFieldsOrNil : JSValue → List (String × JSValue)
  | .obj fs => fs
  | _ => []

/-- JS truthiness (`NaN` is not modelled; numbers are exact integers). -/
def truthy : JSValue → Bool
  | .undefined => false
  | .null => false
  | .bool b => b
  | .num n => n != 0
  | .str s => s != ""
  | .arr _ => true
  | .obj _ => true

/-- `Array.isArray`. -/
def isArray : JSValue → Bool
  | .arr _ => true
  | _ => false

/-- JS `typeof v === "object"` (true for objects, arrays and `null`). -/
def typeofObject : JSValue → Bool
  | .obj _ => true
  | .arr _ => true
  | .null => true
  | _ => false

/-- Whether the value is exactly `null`. -/
def isNull : JSValue → Bool
  | .null => true
  | _ => false

/-- Whether the value is an object literal. -/
def isObj : JSValue → Bool
  | .obj _ => true
  | _ => false

mutual

/-- JS string conversion `String(v)` as used by the `+` concatenations in
the source (ids interpolated into URLs). -/
def jsToString : JSValue → String
  | .undefined => "undefined"
  | .null => "null"
  | .bool b => cond b "true" "false"
  | .num n => toString n
  | .str s => s
  | .arr xs => jsToStringArr xs
  | .obj _ => "[object Object]"

/-- Array-to-string: elements joined by commas, `null`/`undefined` elements
rendered empty. -/
def jsToStringArr : List JSValue → String
  | [] => ""
  | [.undefined] => ""
  | [.null] => ""
  | [v] => jsToString v
  | .undefined :: rest => "," ++ jsToStringArr rest
  | .null :: rest => "," ++ jsToStringArr rest
  | v :: rest => jsToString v ++ "," ++ jsToStringArr rest

end

mutual

/-- `JSON.stringify` (string escaping elided; the digest below only needs a
deterministic canonical form, which the spec sanctions). -/
def jsonStringify : JSValue → String
  | .undefined => "undefined"
  | .null => "null"
  | .bool b => cond b "true" "false"
  | .num n => toString n
  | .str s => "\"" ++ s ++ "\""
  | .arr xs => "[" ++ jsonStringifyArr xs ++ "]"
  | .obj fs => "\x7b" ++ jsonStringifyObj fs ++ "\x7d"

/-- Array elements of `JSON.stringify` (holes become `null`). -/
def jsonStringifyArr : List JSValue → String
  | [] => ""
  | [.undefined] => "null"
  | [v] => jsonStringify v
  | .undefined :: rest => "null," ++ jsonStringifyArr rest
  | v :: rest => jsonStringify v ++ "," ++ jsonStringifyArr rest

/-- Object fields of `JSON.stringify` (`undefined`-valued fields dropped). -/
def jsonStringifyObj : List (String × JSValue) → String
  | [] => ""
  | [(_, .undefined)] => ""
  | [(k, v)] => "\"" ++ k ++ "\":" ++ jsonStringify v
  | (_, .undefined) :: rest => jsonStringifyObj rest
  | (k, v) :: rest => "\"" ++ k ++ "\":" ++ jsonStringify v ++ "," ++ jsonStringifyObj rest

end

/-- `dasherize` (src/index.js lines 13-17): lower-case the first character,
then prefix every internal ASCII upper-case letter with a dash and
lower-case it. -/
def dasherizeCore : List Char → List Char
  | [] => []
  | c :: rest =>
      if c.isUpper then '-' :: c.toLower :: dasherizeCore rest
      else c :: dasherizeCore rest

/-- The full `dasherize` conversion. -/
def dasherize (s : String) : String :=
  match s.toList with
  | [] => ""
  | c :: rest => String.mk (c.toLower :: dasherizeCore rest)

/-- Modelled from the spec: `generateFauxId` (src/index.js lines 27-31) is a
SHA-256 hex digest of the JSON string of the record.  Design note 9 of the
spec states a deterministic non-cryptographic content hash is an acceptable
substitute, so the digest is modelled as a polynomial hash of the canonical
JSON string, rendered in hexadecimal. -/
def generateFauxId (data : JSValue) : String :=
  (Nat.toDigits 16
    ((jsonStringify data).foldl (fun h c => (h * 131 + c.toNat) % (2 ^ 64)) 7)).asString

/-- Sequelize attribute metadata as the source reads it
(`model.attributes[attribute].primaryKey`). -/
structure AttrMeta where
  primaryKey : Bool
deriving Repr, DecidableEq

/-- Sequelize model metadata as the source reads it: a type name and an
ordered attribute map (`Object.keys` order). -/
structure Model where
  name : String
  attributes : List (String × AttrMeta)
deriving Repr

/-- Association metadata of an include descriptor
(`include.association.targetKey`, `.foreignKey`,
`.options.underscored`). -/
structure AssociationMeta where
  targetKey : String
  foreignKey : String
  underscored : Bool
deriving Repr

/-- An include descriptor as consumed by `parseRelationships`
(`include.association`, `include.model`, `include.as`; the `as` field is
named `asField` because `as` collides with Lean syntax). -/
structure IncludeDesc where
  association : AssociationMeta
  model : Model
  asField : String
deriving Repr

/-- The contents of `result.$options` as `jsonapify` reads them: an optional
`include` list (`none` models an absent `include` field). -/
structure ContextObj where
  incl : Option (List IncludeDesc)

/-- The primary-key attribute name, computed exactly as src/index.js line
172: `Object.keys(model.attributes).filter(byPrimaryKey(model))[0]`, which
is `undefined`, not an error, when no attribute is flagged. -/
def idAttributeOf (model : Model) : Option String :=
  ((model.attributes.filter (fun p => p.2.primaryKey)).map Prod.fst).head?

/-- The attribute list handed to the serializer (src/index.js line 179):
all attribute names except the one strictly equal to the element of
`excluded` (when no primary key exists, `excluded` is `[undefined]` and
excludes nothing, since a string is never strictly equal to `undefined`),
with `"relationships"` appended. -/
def serializerAttributes (model : Model) : List String :=
  ((model.attributes.map Prod.fst).filter
    (fun a => idAttributeOf model != some a)) ++ ["relationships"]

/-- Output shape of the external serialization step: the `data` section and
the top-level `links`. -/
structure SerializedJson where
  data : JSValue
  links : JSValue
deriving Repr

/-- Modelled from the spec: one resource object produced by the underlying
generic resource-serialization step (the external `jsonapi-serializer`
dependency, outside this repository).  Per spec section 4.4 it performs
attribute-name-based field selection building `(type, id, attributes)`:
each declared attribute present (not `undefined`) on the record is copied
into `attributes`; the id is read from the `id` field of the record. -/
def serializeResource (typeName : String) (record : JSValue) (attrList : List String) : JSValue :=
  .obj [("type", .str typeName), ("id", jsGet record "id"),
        ("attributes", .obj (attrList.foldl (fun acc a =>
          match jsGet record a with
          | .undefined => acc
          | v => objSetList acc a v) []))]

/-- Modelled from the spec: the full serialization step
(`new JSONAPISerializer(model.name, data, opts)` in src/index.js lines
181-186): a collection input serializes each element, a single input one
resource object; `links` carries the configured top-level `self` link. -/
def serializeStep (typeName : String) (data : JSValue) (selfUrl : String)
    (attrList : List String) : SerializedJson :=
  { data :=
      match data with
      | .arr xs => .arr (xs.map (fun x => serializeResource typeName x attrList))
      | v => serializeResource typeName v attrList
    links := .obj [("self", .str ("/" ++ selfUrl))] }

/-- The hoist of src/index.js lines 188-191: when `json.data.attributes` and
`json.data.attributes.relationships` are both truthy, move `relationships`
to the top level of the resource object and delete it from `attributes`.
On a collection `json.data` is an array, its `attributes` read is
`undefined`, and nothing is hoisted. -/
def hoistRelationships (d : JSValue) : JSValue :=
  if truthy (jsGet d "attributes") && truthy (jsGet (jsGet d "attributes") "relationships") then
    objSet (objSet d "relationships" (jsGet (jsGet d "attributes") "relationships"))
      "attributes" (objDelete (jsGet d "attributes") "relationships")
  else d

/-- The `(document, links, related)` result of `jsonapify`
(src/index.js lines 193-199); `related` is present only when the included
accumulator is non-empty. -/
structure JsonapifyResult where
  document : JSValue
  links : JSValue
  related : Option (List JSValue)
deriving Repr

/-- The tail of `jsonapify` after relationship parsing (src/index.js lines
179-199): serialize, hoist a nested `relationships` field, and attach the
accumulated included data. -/
def assembleDocument (data : JSValue) (includedData : List JSValue)
    (model : Model) (selfUrl : String) : JsonapifyResult :=
  let json := serializeStep model.name data selfUrl (serializerAttributes model)
  { document := hoistRelationships json.data
    links := json.links
    related := if includedData.isEmpty then none else some includedData }

/-- The recursive `jsonapify` call of src/index.js line 118: it passes
`(include: [])`, so relationship parsing is skipped and the call reduces to
`assembleDocument` with an empty accumulator. -/
def jsonapifyNoInclude (data : JSValue) (model : Model) (selfUrl : String) : JsonapifyResult :=
  assembleDocument data [] model selfUrl

/-- The related item built per record by `createRelationshipObject`
(src/index.js lines 90-92 and 97-99): assign `type`, then the target-key
field (JS assignment order, so a target key named `type` overwrites). -/
def relatedItemFor (inc : IncludeDesc) (record : JSValue) : JSValue :=
  .obj (objSetList (objSetList [] "type" (.str inc.model.name))
    inc.association.targetKey (jsGet record inc.association.targetKey))

/-- `createRelationshipObject` (src/index.js lines 84-103): a truthy array
maps every element to a reference, a truthy `typeof === "object"` value
yields one reference, and everything else (absent, `null`, primitives)
yields `null`. -/
def createRelationshipObject (inc : IncludeDesc) (item : JSValue) : JSValue :=
  let av := jsGet item inc.asField
  if truthy av && isArray av then
    .arr ((match av with | .arr xs => xs | _ => []).map (fun record => relatedItemFor inc record))
  else if truthy av && typeofObject av then
    relatedItemFor inc av
  else .null

/-- The merge of src/index.js line 131:
`Object.assign(\x7b\x7d, data.relationships, relationship)`. -/
def mergeRelationships (existing : JSValue) (relationshipName : String)
    (relData : JSValue) : JSValue :=
  .obj (objSetList (objFieldsOrNil existing) relationshipName (.obj [("data", relData)]))

/-- Lines 128-133 of src/index.js, shared by every exit of the relationship
parser: delete the foreign key and the embedded field from the parent, then
record the relationship entry only when its `data` is non-null. -/
def parseRelationshipsFinish (inc : IncludeDesc) (relationshipName : String)
    (relData : JSValue) (data : JSValue) (includedData : List JSValue) :
    JSValue × List JSValue :=
  let data1 := objDelete (objDelete data inc.association.foreignKey) inc.asField
  let data2 :=
    if isNull relData then data1
    else objSet data1 "relationships"
      (mergeRelationships (jsGet data1 "relationships") relationshipName relData)
  (data2, includedData)

/-- One iteration of the `parseRelationships` closure (src/index.js lines
112-134) over a single include descriptor.  When the embedded value is
`undefined` (association field absent), line 118 evaluates
`data[include.as].id` on `undefined` and throws a `TypeError`; a `null`
value skips the serialization block (`!== null` fails); any other value is
serialized by the recursive `jsonapify` call with an empty include list. -/
def parseRelationshipsStep (inc : IncludeDesc) (data : JSValue)
    (includedData : List JSValue) : Except String (JSValue × List JSValue) :=
  let relationshipName :=
    if inc.association.underscored then inc.asField.replace "_" "-" else inc.asField
  let relData := createRelationshipObject inc data
  match jsGet data inc.asField with
  | .null => .ok (parseRelationshipsFinish inc relationshipName relData data includedData)
  | .undefined => .error "TypeError: cannot read property id of undefined"
  | av =>
      let serialized := jsonapifyNoInclude av inc.model
        (inc.model.name ++ "/" ++ jsToString (jsGet av "id"))
      let newIncluded :=
        match serialized.document with
        | .arr items => includedData ++ items.map (fun item =>
            objSet item "links"
              (.obj [("self", .str ("/" ++ inc.model.name ++ "/" ++ jsToString (jsGet item "id")))]))
        | docv => includedData ++ [objSet docv "links" serialized.links]
      let dataX := objSet data inc.asField (objDelete av inc.association.foreignKey)
      .ok (parseRelationshipsFinish inc relationshipName relData dataX newIncluded)

/-- The `context.include.forEach(parseRelationships(...))` loop of
src/index.js line 176, threading the mutated parent record and the shared
included accumulator. -/
def runIncludes (incs : List IncludeDesc) (data : JSValue) :
    Except String (JSValue × List JSValue) :=
  incs.foldlM (fun acc inc => parseRelationshipsStep inc acc.1 acc.2) (data, [])

/-- `jsonapify` (src/index.js lines 170-200).  Reading `context.include` on
an `undefined` context throws; an absent or empty include list skips
relationship parsing. -/
def jsonapify (data : JSValue) (model : Model) (selfUrl : String)
    (context : Option ContextObj) : Except String JsonapifyResult :=
  match context with
  | none => .error "TypeError: cannot read property include of undefined"
  | some ctx =>
      match ctx.incl with
      | some incs =>
          if incs.isEmpty then .ok (assembleDocument data [] model selfUrl)
          else (runIncludes incs data).map (fun r => assembleDocument r.1 r.2 model selfUrl)
      | none => .ok (assembleDocument data [] model selfUrl)

/-- Sanity: a recursive call with an empty include list is exactly
`jsonapifyNoInclude`, justifying the inlining in `parseRelationshipsStep`. -/
theorem jsonapify_emptyInclude (data : JSValue) (model : Model) (selfUrl : String) :
    jsonapify data model selfUrl (some ⟨some []⟩) = .ok (jsonapifyNoInclude data model selfUrl) := rfl

/-- The pagination links object (src/index.js lines 232-244); each field is
present only when its emission condition assigned it. -/
structure PageLinks where
  first : Option String
  next : Option String
  prev : Option String
  last : Option String
deriving Repr, DecidableEq

/-- The find-result object as `createPagination` reads it: optional `skip`,
`limit`, `total` fields (`none` models `undefined`) and an optional `links`
object. -/
structure FindResult where
  skip : Option Int
  limit : Option Int
  total : Option Int
  links : Option PageLinks
deriving Repr, DecidableEq

/-- The `$skip` value of the `last` link (src/index.js line 243):
`Math.floor(total / limit) * limit`.  In JS, when `limit = 0` and the link
is emitted (`total > skip + 0 >= 0`), `total / 0` is `Infinity`,
`Math.floor(Infinity) * 0` is `NaN`, and string concatenation renders
`"NaN"`; for a positive `limit` the value is the exact floor product. -/
def lastSkipValue (total limit : Int) : String :=
  if limit = 0 then "NaN" else toString (total / limit * limit)

/-- `createPagination` (src/index.js lines 230-246): when `skip`, `total`
and `limit` are all defined, a fresh `links` object is attached to the
result before any condition is tested, then each of `first`, `next`,
`prev`, `last` is assigned under its own condition. -/
def createPagination (path : String) (result : FindResult) : FindResult :=
  match result.skip, result.limit, result.total with
  | some skip, some limit, some total =>
      let links0 : PageLinks := { first := none, next := none, prev := none, last := none }
      let l1 :=
        if limit ≤ skip then { links0 with first := some ("/" ++ path) } else links0
      let l2 :=
        if skip + limit < total then
          { l1 with next := some ("/" ++ path ++ "?$skip=" ++ toString (skip + limit)) }
        else l1
      let l3 :=
        if limit < skip + limit then
          { l2 with prev := some ("/" ++ path ++ "?$skip=" ++ toString (skip - limit)) }
        else l2
      let l4 :=
        if skip + limit < total then
          { l3 with last := some ("/" ++ path ++ "?$skip=" ++ lastSkipValue total limit) }
        else l3
      { result with links := some l4 }
  | _, _, _ => result

/-- The pagination links exactly as claim C1 words them: `first` iff
`skip >= limit`; `next` at `skip + limit` iff `skip + limit < total`;
`prev` at `skip - limit` iff `skip + limit > limit`; `last` at
`floor(total / limit) * limit` iff `skip + limit < total` (integer
division). -/
def paginationLinksClaim (path : String) (skip limit total : Int) : PageLinks :=
  { first := if limit ≤ skip then some ("/" ++ path) else none
    next := if skip + limit < total then
        some ("/" ++ path ++ "?$skip=" ++ toString (skip + limit)) else none
    prev := if limit < skip + limit then
        some ("/" ++ path ++ "?$skip=" ++ toString (skip - limit)) else none
    last := if skip + limit < total then
        some ("/" ++ path ++ "?$skip=" ++ toString (total / limit * limit)) else none }

/-- `removeDuplicateRecords` keys the accumulator object by `item.id`
(src/index.js line 149); JS property keys are the string conversion of the
id. -/
def recKey (item : JSValue) : String := jsToString (jsGet item "id")

/-- Assignment `uniqueRecords[key] = item` on the accumulator object:
replaces the value in place when the key exists, appends otherwise. -/
def upsertRecord : List (String × JSValue) → String → JSValue → List (String × JSValue)
  | [], k, v => [(k, v)]
  | (k', v') :: rest, k, v =>
      if k' = k then (k, v) :: rest else (k', v') :: upsertRecord rest k v

/-- `removeDuplicateRecords` (src/index.js lines 144-157): fold the
collection into an object keyed by `item.id` (later occurrences replace
earlier ones), then read the values back out. -/
def removeDuplicateRecords (collection : List JSValue) : List JSValue :=
  (collection.foldl (fun m item => upsertRecord m (recKey item) item) []).map Prod.snd

/-- `createMetadata` (src/index.js lines 209-221): move every top-level key
other than `data`, `included`, `meta`, `links` into a fresh `meta` object,
dasherizing the moved keys; a no-op when no such key exists. -/
def createMetadata (result : JSValue) : JSValue :=
  let metaKeys := (objFieldsOrNil result).map Prod.fst |>.filter
    (fun k => !(k == "data" || k == "included" || k == "meta" || k == "links"))
  if metaKeys.isEmpty then result
  else
    let meta := metaKeys.foldl (fun acc k => objSetList acc (dasherize k) (jsGet result k)) []
    objSet (metaKeys.foldl (fun r k => objDelete r k) result) "meta" (.obj meta)

/-- The recognized hook options (`identifierKey`, `typeKey`); `none` models
an absent option. -/
structure SerializerOpts where
  identifierKey : Option String
  typeKey : Option String

/-- `serializePlainObject` (src/index.js lines 258-284).  The source tests
`if (options.identifierKey)` by truthiness, so an absent or empty-string
option falls back to the content hash; a supplied non-empty key is read
from the record unconditionally (`undefined` when the field is absent).
The parameters `path` and `serviceName` stand for `hook.path` and
`hook.service.options.name`. -/
def serializePlainObject (item : JSValue) (opts : SerializerOpts)
    (path : String) (serviceName : JSValue) : JSValue :=
  let idv := match opts.identifierKey with
    | some k => if k = "" then .str (generateFauxId item) else jsGet item k
    | none => .str (generateFauxId item)
  let typev := match opts.typeKey with
    | some k => if k = "" then serviceName else jsGet item k
    | none => serviceName
  let keyUsed := fun (k : String) (o : Option String) =>
    match o with
    | some s => k == s
    | none => false
  .obj [("id", idv), ("type", typev),
        ("attributes", .obj ((objFieldsOrNil item).foldl (fun acc p =>
          if keyUsed p.1 opts.identifierKey || keyUsed p.1 opts.typeKey then acc
          else objSetList acc (dasherize p.1) p.2) [])),
        ("links", .obj [("self", .str ("/" ++ path ++ "/" ++ jsToString idv))])]

/-- The plain-object fallback branch of `jsonapifyViaFind` (src/index.js
lines 315-327, the `else` of `mustParseAsSequelize`): an array with more
than one element maps every element; a non-array whose `Object.keys` is
non-empty wraps one serialized resource; everything else yields an empty
`data` array. -/
def jsonapifyViaFindPlain (result : JSValue) (opts : SerializerOpts)
    (path : String) (serviceName : JSValue) : JSValue :=
  if isArray result && decide (1 < (match result with | .arr xs => xs.length | _ => 0)) then
    .obj [("data", .arr ((match result with | .arr xs => xs | _ => []).map
      (fun item => serializePlainObject item opts path serviceName)))]
  else if !(isArray result) && decide (0 < (objFieldsOrNil result).length) then
    .obj [("data", .arr [serializePlainObject result opts path serviceName])]
  else
    .obj [("data", .arr [])]

/-- The Sequelize branch of `jsonapifyViaGet` (src/index.js lines 339-350).
Line 340 stringifies the whole record (`JSON.stringify(hook.result)`), so
the serializer receives a string: its `id` read yields `undefined` and the
self URL ends in `/undefined`.  The context parameter stands for
`hook.result.$options`.  The rebuilt result assigns
`included: serialized.related`, which leaves an `undefined`-valued
`included` key in place when there is no related data (the length test on
`undefined` short-circuits), and always attaches the top-level `links` of
the serializer to `data` together with a `parent` link. -/
def jsonapifyViaGet (record : JSValue) (context : Option ContextObj)
    (model : Model) (path : String) : Except String JSValue := do
  let jsonItem : JSValue := .str (jsonStringify record)
  let selfUrl := path ++ "/" ++ jsToString (jsGet jsonItem "id")
  let serialized ← jsonapify jsonItem model selfUrl context
  let result0 : JSValue :=
    .obj [("data", serialized.document),
          ("included", match serialized.related with
                       | some rel => .arr rel
                       | none => .undefined)]
  let result1 :=
    if truthy (jsGet result0 "included")
        && decide ((match jsGet result0 "included" with | .arr xs => xs.length | _ => 0) = 0) then
      objDelete result0 "included"
    else result0
  let result2 :=
    if truthy serialized.links then
      let dataWithLinks := objSet (jsGet result1 "data") "links" serialized.links
      let dataWithParent := objSet dataWithLinks "links"
        (objSet (jsGet dataWithLinks "links") "parent" (.str ("/" ++ model.name)))
      objSet result1 "data" dataWithParent
    else result1
  pure (createMetadata result2)

/-! Pagination: claims C1 and C9. -/

/-- C1 (amended): for non-negative `skip`, `total` and a positive `limit`,
`createPagination` emits exactly the four links of the claim: `first` at
the bare path iff `skip >= limit`, `next` at `skip + limit` iff
`skip + limit < total`, `prev` at `skip - limit` iff `skip + limit >
limit`, and `last` at `floor(total / limit) * limit` iff
`skip + limit < total`.  The positivity of `limit` is required: at
`limit = 0` the JS code renders the `last` offset as `NaN`. -/
theorem createPagination_claimLinks (path : String) (skip limit total : Int)
    (lnk : Option PageLinks) (h0 : 0 ≤ skip) (h1 : 0 < limit) (h2 : 0 ≤ total) :
    (createPagination path ⟨some skip, some limit, some total, lnk⟩).links =
      some (paginationLinksClaim path skip limit total) := by
  have hne : limit ≠ 0 := ne_of_gt h1
  by_cases hA : limit ≤ skip <;> by_cases hB : skip + limit < total <;>
    by_cases hC : limit < skip + limit <;>
      simp [createPagination, paginationLinksClaim, lastSkipValue, hA, hB, hC, hne]

/-- Witness for C1: the spec example `(skip 0, limit 2, total 15)` over path
`topics` satisfies the hypotheses and yields exactly
`next = /topics?$skip=2` and `last = /topics?$skip=14` with no `first` and
no `prev`. -/
theorem createPagination_claimLinks_witness :
    (0 : Int) ≤ 0 ∧ (0 : Int) < 2 ∧ (0 : Int) ≤ 15 ∧
    (createPagination "topics" ⟨some 0, some 2, some 15, none⟩).links =
      some (paginationLinksClaim "topics" 0 2 15) ∧
    paginationLinksClaim "topics" 0 2 15 =
      { first := none, next := some "/topics?$skip=2",
        prev := none, last := some "/topics?$skip=14" } :=
  ⟨by decide, by decide, by decide,
   createPagination_claimLinks "topics" 0 2 15 none (by decide) (by decide) (by decide),
   by decide⟩

/-- Counterexample to C1 as stated: at the non-negative integers
`skip = 0, limit = 0, total = 1` (the claim admits `limit = 0`), the code
emits `last = /topics?$skip=NaN` while the claimed formula
`floor(total / limit) * limit` reads `0`, so the emitted links differ from
the claimed ones. -/
theorem createPagination_limitZero_counterexample :
    (createPagination "topics" ⟨some 0, some 0, some 1, none⟩).links ≠
      some (paginationLinksClaim "topics" 0 0 1) ∧
    (createPagination "topics" ⟨some 0, some 0, some 1, none⟩).links =
      some { first := some "/topics", next := some "/topics?$skip=0",
             prev := none, last := some "/topics?$skip=NaN" } := by
  constructor
  · decide
  · rfl

/-- C9: whenever `skip`, `limit` and `total` are all defined, the builder
attaches a `links` object unconditionally; when additionally no emission
condition holds (`skip < limit`, `skip + limit >= total`, `skip <= 0`), the
attached object is the empty mapping. -/
theorem createPagination_attachesLinks (path : String) (s l t : Int)
    (lnk : Option PageLinks) :
    ((createPagination path ⟨some s, some l, some t, lnk⟩).links).isSome = true ∧
    (s < l → t ≤ s + l → s ≤ 0 →
      (createPagination path ⟨some s, some l, some t, lnk⟩).links =
        some { first := none, next := none, prev := none, last := none }) := by
  constructor
  · simp [createPagination]
  · intro h1 h2 h3
    have hA : ¬ (l ≤ s) := by omega
    have hB : ¬ (s + l < t) := by omega
    have hC : ¬ (l < s + l) := by omega
    simp [createPagination, hA, hB, hC]

/-- Witness for C9 at `skip = 0, limit = 2, total = 2`: a `links` object is
attached and it is empty. -/
theorem createPagination_attachesLinks_witness :
    ((createPagination "topics" ⟨some 0, some 2, some 2, none⟩).links).isSome = true ∧
    (createPagination "topics" ⟨some 0, some 2, some 2, none⟩).links =
      some { first := none, next := none, prev := none, last := none } :=
  ⟨(createPagination_attachesLinks "topics" 0 2 2 none).1,
   (createPagination_attachesLinks "topics" 0 2 2 none).2 (by decide) (by decide) (by decide)⟩

/-! Included-set deduplication: claim C5. -/

/-- Every entry of an upserted accumulator is an old entry or the new pair. -/
theorem mem_upsertRecord {m : List (String × JSValue)} {k : String} {v : JSValue}
    {p : String × JSValue} (hp : p ∈ upsertRecord m k v) : p ∈ m ∨ p = (k, v) := by
  induction m with
  | nil => simpa [upsertRecord] using hp
  | cons q rest ih =>
      by_cases hq : q.1 = k
      · rw [show (q :: rest : List (String × JSValue)) = (q.1, q.2) :: rest by simp,
          upsertRecord, if_pos hq] at hp
        rcases List.mem_cons.mp hp with h | h
        · exact Or.inr h
        · exact Or.inl (List.mem_cons_of_mem _ h)
      · rw [show (q :: rest : List (String × JSValue)) = (q.1, q.2) :: rest by simp,
          upsertRecord, if_neg hq] at hp
        rcases List.mem_cons.mp hp with h | h
        · exact Or.inl (by simp [h])
        · rcases ih h with h' | h'
          · exact Or.inl (List.mem_cons_of_mem _ h')
          · exact Or.inr h'

/-- Keys after an upsert: unchanged when the key was present, appended
otherwise. -/
theorem keys_upsertRecord (m : List (String × JSValue)) (k : String) (v : JSValue) :
    (upsertRecord m k v).map Prod.fst =
      (if k ∈ m.map Prod.fst then m.map Prod.fst else m.map Prod.fst ++ [k]) := by
  induction m with
  | nil => simp [upsertRecord]
  | cons q rest ih =>
      obtain ⟨a, b⟩ := q
      by_cases hq : a = k
      · rw [upsertRecord, if_pos hq]
        simp [hq]
      · rw [upsertRecord, if_neg hq]
        have hne : ¬ (k = a) := fun h => hq h.symm
        by_cases hmem : k ∈ rest.map Prod.fst <;>
          simp [hmem, ih, hne]

/-- Upserting preserves distinctness of the accumulator keys. -/
theorem nodup_upsertRecord {m : List (String × JSValue)} (k : String) (v : JSValue)
    (hm : (m.map Prod.fst).Nodup) : ((upsertRecord m k v).map Prod.fst).Nodup := by
  rw [keys_upsertRecord]
  by_cases hmem : k ∈ m.map Prod.fst
  · simpa [hmem] using hm
  · rw [if_neg hmem, List.nodup_append]
    refine ⟨hm, List.nodup_singleton _, ?_⟩
    intro a ha hb
    rw [List.mem_singleton] at hb
    subst hb
    exact hmem ha

/-- A field list without the key filters to nothing on that key. -/
theorem filter_eq_nil_of_key_not_mem {m : List (String × JSValue)} {k : String}
    (h : k ∉ m.map Prod.fst) : m.filter (fun p => p.1 == k) = [] := by
  induction m with
  | nil => rfl
  | cons q rest ih =>
      have h1 : ¬ q.1 = k := fun hq => h (by simp [hq])
      have h2 : k ∉ rest.map Prod.fst := fun hr => h (by simp [hr])
      simp [List.filter_cons, h1, ih h2]

/-- After an upsert at key `k` into a distinctly-keyed accumulator, the
entries at key `k` are exactly the new pair. -/
theorem upsertRecord_filter_self {m : List (String × JSValue)} {k : String} {v : JSValue}
    (hm : (m.map Prod.fst).Nodup) :
    (upsertRecord m k v).filter (fun p => p.1 == k) = [(k, v)] := by
  induction m with
  | nil => simp [upsertRecord]
  | cons q rest ih =>
      obtain ⟨a, b⟩ := q
      rw [List.map_cons, List.nodup_cons] at hm
      by_cases hq : a = k
      · rw [upsertRecord, if_pos hq]
        have hk : k ∉ rest.map Prod.fst := by rw [← hq]; exact hm.1
        simp [List.filter_cons, filter_eq_nil_of_key_not_mem hk]
      · rw [upsertRecord, if_neg hq]
        simp [List.filter_cons, hq, ih hm.2]

/-- An upsert at a different key leaves the entries at key `s` unchanged. -/
theorem upsertRecord_filter_other {m : List (String × JSValue)} {k s : String} {v : JSValue}
    (hs : s ≠ k) :
    (upsertRecord m k v).filter (fun p => p.1 == s) = m.filter (fun p => p.1 == s) := by
  induction m with
  | nil => simp [upsertRecord, Ne.symm hs]
  | cons q rest ih =>
      obtain ⟨a, b⟩ := q
      by_cases hq : a = k
      · rw [upsertRecord, if_pos hq]
        have has : ¬ (a = s) := fun h => hs (by rw [← h, hq])
        simp [List.filter_cons, has, Ne.symm hs]
      · rw [upsertRecord, if_neg hq]
        simp [List.filter_cons, ih]

/-- The fold of `removeDuplicateRecords`. -/
def dedupFold (c : List JSValue) (m : List (String × JSValue)) : List (String × JSValue) :=
  c.foldl (fun acc item => upsertRecord acc (recKey item) item) m

/-- The dedup fold preserves distinctness of the accumulator keys. -/
theorem dedupFold_nodup (c : List JSValue) :
    ∀ m : List (String × JSValue), (m.map Prod.fst).Nodup →
      ((dedupFold c m).map Prod.fst).Nodup := by
  induction c with
  | nil => intro m hm; simpa [dedupFold] using hm
  | cons it rest ih =>
      intro m hm
      exact ih _ (nodup_upsertRecord _ _ hm)

/-- Every accumulator pair of the dedup fold keys its value by `recKey`. -/
theorem dedupFold_inv (c : List JSValue) :
    ∀ m : List (String × JSValue), (∀ p ∈ m, p.1 = recKey p.2) →
      ∀ p ∈ dedupFold c m, p.1 = recKey p.2 := by
  induction c with
  | nil => intro m hm; simpa [dedupFold] using hm
  | cons it rest ih =>
      intro m hm
      refine ih _ (fun p hp => ?_)
      rcases mem_upsertRecord hp with h | h
      · exact hm p h
      · rw [h]

/-- Last-write-wins characterisation of the dedup fold: the accumulator
entries at key `s` are the last input record whose id renders as `s`, or
whatever the initial accumulator held when no input record matches. -/
theorem dedupFold_filter (s : String) (c : List JSValue) :
    ∀ m : List (String × JSValue), (m.map Prod.fst).Nodup →
      (dedupFold c m).filter (fun p => p.1 == s) =
        (match (c.filter (fun item => recKey item == s)).getLast? with
         | some it => [(s, it)]
         | none => m.filter (fun p => p.1 == s)) := by
  induction c using List.reverseRecOn with
  | nil => intro m hm; simp [dedupFold]
  | append_singleton rest it ih =>
      intro m hm
      have hfold : dedupFold (rest ++ [it]) m =
          upsertRecord (dedupFold rest m) (recKey it) it := by
        simp [dedupFold]
      rw [hfold]
      by_cases hk : recKey it = s
      · rw [hk, upsertRecord_filter_self (dedupFold_nodup rest m hm)]
        simp [List.filter_append, hk]
      · rw [upsertRecord_filter_other (fun h => hk h.symm), ih m hm]
        simp [List.filter_append, hk]

/-- Filtering a projected accumulator. -/
theorem filter_map_snd (P : JSValue → Bool) (m : List (String × JSValue)) :
    (m.map Prod.snd).filter P = (m.filter (fun p => P p.2)).map Prod.snd := by
  induction m with
  | nil => rfl
  | cons p rest ih => by_cases h : P p.2 <;> simp [List.filter_cons, h, ih]

/-- C5: for every flat sequence of resource objects, the entries of the
deduplicated output whose identifier renders as `s` are exactly the last
input entry with that identifier (one entry per distinct identifier,
last-write-wins), and nothing when no input entry has it. -/
theorem removeDuplicateRecords_lastWins (c : List JSValue) (s : String) :
    (removeDuplicateRecords c).filter (fun item => recKey item == s) =
      (match (c.filter (fun item => recKey item == s)).getLast? with
       | some it => [it]
       | none => []) := by
  unfold removeDuplicateRecords
  rw [show (c.foldl (fun m item => upsertRecord m (recKey item) item) []) = dedupFold c []
    from rfl]
  rw [filter_map_snd]
  have hcongr : (dedupFold c []).filter (fun p => recKey p.2 == s) =
      (dedupFold c []).filter (fun p => p.1 == s) := by
    refine List.filter_congr (fun p hp => ?_)
    rw [dedupFold_inv c [] (by simp) p hp]
  rw [hcongr, dedupFold_filter s c [] (by simp)]
  cases (c.filter (fun item => recKey item == s)).getLast? <;> simp

/-! Primary-key lookup failure: claim C2. -/

/-- A model whose attribute map flags no primary key. -/
def noPkModel : Model := ⟨"things", [("a", ⟨false⟩), ("b", ⟨false⟩)]⟩

/-- C2 (amended): when no attribute is flagged as primary key the document
assembler does not fail; line 172 of src/index.js leaves the id attribute
`undefined`, the excluded list `[undefined]` matches no attribute name, and
assembly proceeds normally with every attribute retained in the serializer
attribute list. -/
theorem jsonapify_noPrimaryKey (model : Model) (hpk : idAttributeOf model = none) :
    serializerAttributes model = (model.attributes.map Prod.fst) ++ ["relationships"] ∧
    ∀ (data : JSValue) (selfUrl : String),
      jsonapify data model selfUrl (some ⟨some []⟩) =
        .ok (assembleDocument data [] model selfUrl) := by
  constructor
  · unfold serializerAttributes
    rw [hpk]
    congr 1
    apply List.filter_eq_self.mpr
    intro a _
    rfl
  · intro data selfUrl
    rfl

/-- Witness for C2 (amended) at a concrete model without a primary key. -/
theorem jsonapify_noPrimaryKey_witness :
    idAttributeOf noPkModel = none ∧
    serializerAttributes noPkModel = ["a", "b", "relationships"] ∧
    jsonapify (.obj [("a", .num 1)]) noPkModel "things" (some ⟨some []⟩) =
      .ok (assembleDocument (.obj [("a", .num 1)]) [] noPkModel "things") :=
  ⟨rfl,
   by rw [(jsonapify_noPrimaryKey noPkModel rfl).1]; rfl,
   (jsonapify_noPrimaryKey noPkModel rfl).2 (.obj [("a", .num 1)]) "things"⟩

/-- Counterexample to C2 as stated: invoking the assembler on model
metadata with no primary-key attribute returns a normal document (no
SchemaError, no error of any kind); the id is read from the absent `id`
field and every attribute survives. -/
theorem jsonapify_noPrimaryKey_counterexample :
    jsonapify (.obj [("a", .num 1), ("b", .str "x")]) noPkModel "things" (some ⟨some []⟩) =
      .ok { document := .obj [("type", .str "things"), ("id", .undefined),
              ("attributes", .obj [("a", .num 1), ("b", .str "x")])],
            links := .obj [("self", .str "/things")],
            related := none } := rfl

/-! Hoisting of the nested relationships field: claim C3. -/

/-- Setting a key makes it the value found at that key. -/
theorem lookupField_objSetList_self (fs : List (String × JSValue)) (k : String) (v : JSValue) :
    lookupField (objSetList fs k v) k = v := by
  induction fs with
  | nil => simp [objSetList, lookupField]
  | cons p rest ih =>
      obtain ⟨a, b⟩ := p
      by_cases h : a = k <;> simp [objSetList, lookupField, h, ih]

/-- Setting one key does not change the value found at another. -/
theorem lookupField_objSetList_other (fs : List (String × JSValue)) (k k' : String)
    (v : JSValue) (h : k' ≠ k) :
    lookupField (objSetList fs k v) k' = lookupField fs k' := by
  induction fs with
  | nil => simp [objSetList, lookupField, Ne.symm h]
  | cons p rest ih =>
      obtain ⟨a, b⟩ := p
      by_cases ha : a = k
      · subst ha
        simp [objSetList, lookupField, Ne.symm h]
      · by_cases ha' : a = k'
        · subst ha'
          simp [objSetList, lookupField, ha, h]
        · simp [objSetList, lookupField, ha, ha', ih]

/-- Deleting a key removes it. -/
theorem objHasKeyList_delete_self (A : List (String × JSValue)) (k : String) :
    objHasKeyList (objDeleteList A k) k = false := by
  induction A with
  | nil => rfl
  | cons p rest ih =>
      obtain ⟨a, b⟩ := p
      by_cases h : a = k <;> simp [objDeleteList, objHasKeyList, h, ih]

/-- A key present after a delete was present before. -/
theorem objHasKeyList_delete_mono {A : List (String × JSValue)} {r k : String}
    (h : objHasKeyList (objDeleteList A r) k = true) : objHasKeyList A k = true := by
  induction A with
  | nil => simpa [objDeleteList, objHasKeyList] using h
  | cons p rest ih =>
      obtain ⟨a, b⟩ := p
      by_cases hr : a = r
      · rw [objDeleteList, if_pos hr] at h
        by_cases hk : a = k <;> simp [objHasKeyList, hk, ih h]
      · rw [objDeleteList, if_neg hr] at h
        by_cases hk : a = k
        · simp [objHasKeyList, hk]
        · rw [objHasKeyList, if_neg hk] at h ⊢
          exact ih h

/-- The serialization step on a non-array input is one resource object. -/
theorem serializeStep_notArr (t : String) (data : JSValue) (u : String)
    (al : List String) (h : isArray data = false) :
    (serializeStep t data u al).data = serializeResource t data al := by
  cases data <;> first
    | rfl
    | simp [isArray] at h

/-- The hoist of src/index.js lines 188-191 on a serialized resource object
with a truthy `relationships` entry in its attributes: the entry moves to
the top level and disappears from the attributes. -/
theorem hoistRelationships_record (t i : JSValue) (A : List (String × JSValue))
    (h : truthy (lookupField A "relationships") = true) :
    hoistRelationships (.obj [("type", t), ("id", i), ("attributes", .obj A)]) =
      .obj [("type", t), ("id", i),
            ("attributes", .obj (objDeleteList A "relationships")),
            ("relationships", lookupField A "relationships")] := by
  have hcond : (truthy (jsGet (JSValue.obj [("type", t), ("id", i), ("attributes", .obj A)]) "attributes")
      && truthy (jsGet (jsGet (JSValue.obj [("type", t), ("id", i), ("attributes", .obj A)]) "attributes") "relationships")) = true := by
    rw [show jsGet (JSValue.obj [("type", t), ("id", i), ("attributes", .obj A)]) "attributes" = .obj A from rfl]
    simpa [truthy, jsGet] using h
  unfold hoistRelationships
  rw [if_pos hcond]
  rfl

/-- The hoist never fires on an array (`json.data.attributes` is
`undefined`). -/
theorem hoistRelationships_arr (xs : List JSValue) :
    hoistRelationships (.arr xs) = .arr xs := rfl

/-- C3 (amended): the assembler hoists the `relationships` entry out of
`attributes` only for a single (non-sequence) record whose serialized
attributes hold a truthy `relationships` value; in that case the returned
resource object has no `relationships` key inside `attributes` and carries
the value at the top level.  For a collection input the serialized elements
are returned without any hoisting. -/
theorem assembleDocument_hoist (model : Model) (selfUrl : String) (incd : List JSValue) :
    (∀ xs : List JSValue,
      (assembleDocument (.arr xs) incd model selfUrl).document =
        .arr (xs.map (fun x => serializeResource model.name x (serializerAttributes model)))) ∧
    (∀ data : JSValue, isArray data = false →
      truthy (jsGet (jsGet (serializeResource model.name data (serializerAttributes model)) "attributes") "relationships") = true →
      objHasKey (jsGet (assembleDocument data incd model selfUrl).document "attributes") "relationships" = false ∧
      jsGet (assembleDocument data incd model selfUrl).document "relationships" =
        jsGet (jsGet (serializeResource model.name data (serializerAttributes model)) "attributes") "relationships") := by
  constructor
  · intro xs
    simp [assembleDocument, serializeStep, hoistRelationships_arr]
  · intro data hna h3
    have hdoc : (assembleDocument data incd model selfUrl).document =
        hoistRelationships (serializeResource model.name data (serializerAttributes model)) := by
      simp [assembleDocument, serializeStep_notArr _ _ _ _ hna]
    have h3' : truthy (lookupField ((serializerAttributes model).foldl (fun acc a =>
        match jsGet data a with
        | .undefined => acc
        | v => objSetList acc a v) []) "relationships") = true := h3
    rw [hdoc, show serializeResource model.name data (serializerAttributes model) =
      .obj [("type", .str model.name), ("id", jsGet data "id"),
            ("attributes", .obj ((serializerAttributes model).foldl (fun acc a =>
              match jsGet data a with
              | .undefined => acc
              | v => objSetList acc a v) []))] from rfl,
      hoistRelationships_record _ _ _ h3']
    refine ⟨?_, ?_⟩
    · simpa [jsGet, lookupField, objHasKey] using
        objHasKeyList_delete_self ((serializerAttributes model).foldl (fun acc a =>
          match jsGet data a with
          | .undefined => acc
          | v => objSetList acc a v) []) "relationships"
    · rfl

/-- Witness for C3 (amended): a concrete single record with a truthy
`relationships` attribute is hoisted, and the hypotheses hold. -/
theorem assembleDocument_hoist_witness :
    isArray (JSValue.obj [("a", .num 1), ("relationships", .obj [("x", .num 1)])]) = false ∧
    (assembleDocument (.obj [("a", .num 1), ("relationships", .obj [("x", .num 1)])]) [] noPkModel "things").document =
      .obj [("type", .str "things"), ("id", .undefined),
            ("attributes", .obj [("a", .num 1)]),
            ("relationships", .obj [("x", .num 1)])] ∧
    objHasKey (jsGet (assembleDocument (.obj [("a", .num 1), ("relationships", .obj [("x", .num 1)])]) [] noPkModel "things").document "attributes") "relationships" = false :=
  ⟨rfl, rfl,
   ((assembleDocument_hoist noPkModel "things" []).2
      (.obj [("a", .num 1), ("relationships", .obj [("x", .num 1)])]) rfl rfl).1⟩

/-- A three-attribute model for the collection counterexample. -/
def hoistModel : Model := ⟨"posts", [("uid", ⟨true⟩), ("name", ⟨false⟩), ("relationships", ⟨false⟩)]⟩

/-- First collection element carrying a truthy `relationships` field. -/
def hoistRecA : JSValue := .obj [("uid", .num 1), ("name", .str "a"), ("relationships", .obj [("x", .num 1)])]

/-- Second collection element carrying a truthy `relationships` field. -/
def hoistRecB : JSValue := .obj [("uid", .num 2), ("name", .str "b"), ("relationships", .obj [("x", .num 2)])]

/-- Counterexample to C3 as stated: on a collection, both returned resource
objects keep a `relationships` key inside their `attributes` mapping
(`json.data` is an array, so the hoist of lines 188-191 never fires). -/
theorem assembleDocument_hoist_counterexample :
    (jsonapify (.arr [hoistRecA, hoistRecB]) hoistModel "posts" (some ⟨some []⟩)).map
      (fun res => (match res.document with | .arr xs => xs | _ => []).map
        (fun r => objHasKey (jsGet r "attributes") "relationships")) = .ok [true, true] := rfl

/-! Primary key never in attributes: claim C6. -/

/-- A key present after a set was present before or is the set key. -/
theorem objHasKeyList_objSetList {acc : List (String × JSValue)} {k a : String} {v : JSValue}
    (h : objHasKeyList (objSetList acc k v) a = true) :
    objHasKeyList acc a = true ∨ a = k := by
  induction acc with
  | nil =>
      rw [objSetList, objHasKeyList] at h
      by_cases hk : k = a
      · exact Or.inr hk.symm
      · rw [if_neg hk] at h
        exact absurd h (by simp [objHasKeyList])
  | cons p rest ih =>
      obtain ⟨b, w⟩ := p
      by_cases hb : b = k
      · rw [objSetList, if_pos hb, objHasKeyList] at h
        by_cases hk : k = a
        · exact Or.inr hk.symm
        · rw [if_neg hk] at h
          left
          rw [objHasKeyList]
          by_cases hba : b = a
          · simp [hba]
          · rw [if_neg hba]
            exact h
      · rw [objSetList, if_neg hb, objHasKeyList] at h
        rw [objHasKeyList]
        by_cases hba : b = a
        · simp [hba]
        · rw [if_neg hba] at h ⊢
          exact ih h

/-- Keys of the attribute fold of the serializer come from the accumulator
or the attribute list. -/
theorem attrFold_hasKey (record : JSValue) (a : String) (al : List String) :
    ∀ acc : List (String × JSValue),
      objHasKeyList (al.foldl (fun acc x =>
        match jsGet record x with
        | .undefined => acc
        | v => objSetList acc x v) acc) a = true →
      objHasKeyList acc a = true ∨ a ∈ al := by
  induction al with
  | nil =>
      intro acc h
      exact Or.inl h
  | cons x rest ih =>
      intro acc h
      rw [List.foldl_cons] at h
      rcases ih _ h with h' | h'
      · cases hv : jsGet record x
        case undefined =>
          rw [hv] at h'
          exact Or.inl h'
        all_goals
          rw [hv] at h'
          rcases objHasKeyList_objSetList h' with h'' | h''
          · exact Or.inl h''
          · exact Or.inr (by simp [h''])
      · exact Or.inr (List.mem_cons_of_mem _ h')

/-- Every key of the attributes of a serialized resource object comes from
the declared attribute list. -/
theorem serializeResource_attr_mem {t : String} {record : JSValue} {al : List String}
    {a : String}
    (h : objHasKey (jsGet (serializeResource t record al) "attributes") a = true) :
    a ∈ al := by
  have h' : objHasKeyList (al.foldl (fun acc x =>
      match jsGet record x with
      | .undefined => acc
      | v => objSetList acc x v) []) a = true := h
  rcases attrFold_hasKey record a al [] h' with h'' | h''
  · exact absurd h'' (by simp [objHasKeyList])
  · exact h''

/-- A key present after a delete on any value was present before. -/
theorem objHasKey_delete_mono {X : JSValue} {r k : String}
    (h : objHasKey (objDelete X r) k = true) : objHasKey X k = true := by
  cases X <;> first
    | exact objHasKeyList_delete_mono h
    | simpa [objDelete, objHasKey] using h

/-- The hoist only ever removes keys from `attributes`. -/
theorem hoist_attr_hasKey {d : JSValue} {k : String}
    (h : objHasKey (jsGet (hoistRelationships d) "attributes") k = true) :
    objHasKey (jsGet d "attributes") k = true := by
  unfold hoistRelationships at h
  by_cases hcond : (truthy (jsGet d "attributes")
      && truthy (jsGet (jsGet d "attributes") "relationships")) = true
  · rw [if_pos hcond] at h
    cases d <;> try simp [jsGet, truthy] at hcond
    rename_i fs
    · have hW : jsGet (objSet (objSet (JSValue.obj fs) "relationships"
            (jsGet (jsGet (JSValue.obj fs) "attributes") "relationships"))
            "attributes" (objDelete (jsGet (JSValue.obj fs) "attributes") "relationships"))
            "attributes" =
            objDelete (jsGet (JSValue.obj fs) "attributes") "relationships" := by
          rw [show objSet (objSet (JSValue.obj fs) "relationships"
            (jsGet (jsGet (JSValue.obj fs) "attributes") "relationships"))
            "attributes" (objDelete (jsGet (JSValue.obj fs) "attributes") "relationships") =
            JSValue.obj (objSetList (objSetList fs "relationships"
              (jsGet (jsGet (JSValue.obj fs) "attributes") "relationships"))
              "attributes" (objDelete (jsGet (JSValue.obj fs) "attributes") "relationships"))
            from rfl]
          exact lookupField_objSetList_self _ _ _
      rw [hW] at h
      exact objHasKey_delete_mono h
  · rw [if_neg hcond] at h
    exact h

/-- When the primary key is not named `relationships`, it is not in the
serializer attribute list. -/
theorem pk_not_mem_serializerAttributes (model : Model) (k : String)
    (hpk : idAttributeOf model = some k) (hk : k ≠ "relationships") :
    k ∉ serializerAttributes model := by
  intro hmem
  rcases List.mem_append.mp hmem with h | h
  · have hcond := (List.mem_filter.mp h).2
    rw [hpk] at hcond
    simp at hcond
  · exact hk (by simpa using h)

/-- The resource objects of a document: the elements of a collection, or
the single resource itself. -/
def documentResources : JSValue → List JSValue
  | .arr xs => xs
  | v => [v]

/-- A hoisted object is still an object. -/
theorem hoistRelationships_obj_shape (fs : List (String × JSValue)) :
    ∃ gs, hoistRelationships (.obj fs) = .obj gs := by
  unfold hoistRelationships
  split
  · exact ⟨_, rfl⟩
  · exact ⟨fs, rfl⟩

/-- Every successful `jsonapify` outcome is an assembled document. -/
theorem jsonapify_ok_shape {data : JSValue} {model : Model} {selfUrl : String}
    {ctx : Option ContextObj} {res : JsonapifyResult}
    (hok : jsonapify data model selfUrl ctx = .ok res) :
    ∃ d i, res = assembleDocument d i model selfUrl := by
  cases ctx with
  | none => exact absurd hok (by simp [jsonapify])
  | some c =>
      cases hc : c.incl with
      | none =>
          simp only [jsonapify, hc] at hok
          exact ⟨data, [], (Except.ok.inj hok).symm⟩
      | some incs =>
          cases incs with
          | nil =>
              simp only [jsonapify, hc, List.isEmpty_nil, if_true] at hok
              exact ⟨data, [], (Except.ok.inj hok).symm⟩
          | cons i is =>
              cases hr : runIncludes (i :: is) data with
              | error e =>
                  exact absurd hok (by simp [jsonapify, hc, hr, Except.map])
              | ok r =>
                  refine ⟨r.1, r.2, ?_⟩
                  simp only [jsonapify, hc, List.isEmpty_cons, hr, Except.map] at hok
                  exact (Except.ok.inj hok).symm

/-- C6 (amended): provided the primary-key attribute is not itself named
`relationships`, no resource object produced by the document assembler
carries the primary-key attribute name in its `attributes` mapping (the
restriction is required: line 179 of src/index.js unconditionally appends
`relationships` to the attribute list, re-admitting a primary key of that
name). -/
theorem jsonapify_pk_excluded (data : JSValue) (model : Model) (selfUrl : String)
    (ctx : Option ContextObj) (res : JsonapifyResult) (k : String)
    (hpk : idAttributeOf model = some k) (hk : k ≠ "relationships")
    (hok : jsonapify data model selfUrl ctx = .ok res) :
    ∀ r ∈ documentResources res.document, objHasKey (jsGet r "attributes") k = false := by
  obtain ⟨d2, incd, hres⟩ := jsonapify_ok_shape hok
  subst hres
  intro r hr
  by_contra hcon
  rw [Bool.not_eq_false] at hcon
  have hmem : k ∈ serializerAttributes model := by
    by_cases hisarr : isArray d2 = true
    · obtain ⟨xs, rfl⟩ : ∃ xs, d2 = .arr xs := by
        cases d2 <;> first
          | exact ⟨_, rfl⟩
          | simp [isArray] at hisarr
      have hdoc : (assembleDocument (.arr xs) incd model selfUrl).document =
          .arr (xs.map fun x => serializeResource model.name x (serializerAttributes model)) := by
        simp [assembleDocument, serializeStep, hoistRelationships_arr]
      rw [hdoc] at hr
      simp only [documentResources, List.mem_map] at hr
      obtain ⟨x, _, rfl⟩ := hr
      exact serializeResource_attr_mem hcon
    · have hna : isArray d2 = false := by
        cases hb : isArray d2
        · rfl
        · exact absurd hb hisarr
      have hdoc : (assembleDocument d2 incd model selfUrl).document =
          hoistRelationships (serializeResource model.name d2 (serializerAttributes model)) := by
        simp [assembleDocument, serializeStep_notArr _ _ _ _ hna]
      obtain ⟨gs, hgs⟩ := hoistRelationships_obj_shape
        [("type", .str model.name), ("id", jsGet d2 "id"),
         ("attributes", .obj ((serializerAttributes model).foldl (fun acc a =>
           match jsGet d2 a with
           | .undefined => acc
           | v => objSetList acc a v) []))]
      have hser : serializeResource model.name d2 (serializerAttributes model) =
          JSValue.obj [("type", .str model.name), ("id", jsGet d2 "id"),
            ("attributes", .obj ((serializerAttributes model).foldl (fun acc a =>
              match jsGet d2 a with
              | .undefined => acc
              | v => objSetList acc a v) []))] := rfl
      rw [hdoc, hser, hgs] at hr
      simp only [documentResources, List.mem_singleton] at hr
      subst hr
      rw [← hgs, ← hser] at hcon
      exact serializeResource_attr_mem (hoist_attr_hasKey hcon)
  exact pk_not_mem_serializerAttributes model k hpk hk hmem

/-- A conventional model whose primary key is `id`. -/
def pkModel : Model := ⟨"topics", [("id", ⟨true⟩), ("name", ⟨false⟩)]⟩

/-- Witness for C6 (amended) at a concrete model and record: `id` does not
appear in the produced attributes. -/
theorem jsonapify_pk_excluded_witness :
    idAttributeOf pkModel = some "id" ∧
    ∀ r ∈ documentResources (assembleDocument (.obj [("id", .num 1), ("name", .str "a")])
        [] pkModel "topics/1").document,
      objHasKey (jsGet r "attributes") "id" = false :=
  ⟨rfl,
   jsonapify_pk_excluded (.obj [("id", .num 1), ("name", .str "a")]) pkModel "topics/1"
     (some ⟨some []⟩) _ "id" rfl (by decide) rfl⟩

/-- A pathological model whose primary key is named `relationships`. -/
def pkRelModel : Model := ⟨"weird", [("relationships", ⟨true⟩), ("name", ⟨false⟩)]⟩

/-- Counterexample to C6 as stated: with a primary key named
`relationships` and a falsy stored value (`0`), the appended
`relationships` attribute survives serialization and the hoist does not
fire, so the produced attributes mapping contains the primary-key name. -/
theorem jsonapify_pk_excluded_counterexample :
    idAttributeOf pkRelModel = some "relationships" ∧
    (jsonapify (.obj [("relationships", .num 0), ("name", .str "x")]) pkRelModel "weird/0"
        (some ⟨some []⟩)).map
      (fun res => objHasKey (jsGet res.document "attributes") "relationships") = .ok true :=
  ⟨rfl, rfl⟩

/-! Plain-object fallback of the find dispatcher: claim C4. -/

/-- C4 (amended): in the plain-object fallback path of the find dispatcher,
an input sequence with more than one element maps every element; a
non-sequence non-empty record wraps one serialized resource; a
single-element sequence falls through to the final branch and yields the
empty `data` sequence (not a one-element wrap), as do the empty sequence
and the empty record. -/
theorem jsonapifyViaFindPlain_cases (opts : SerializerOpts) (path : String) (svc : JSValue) :
    (∀ xs : List JSValue, 1 < xs.length →
      jsonapifyViaFindPlain (.arr xs) opts path svc =
        .obj [("data", .arr (xs.map (fun item => serializePlainObject item opts path svc)))]) ∧
    (∀ fs : List (String × JSValue), fs ≠ [] →
      jsonapifyViaFindPlain (.obj fs) opts path svc =
        .obj [("data", .arr [serializePlainObject (.obj fs) opts path svc])]) ∧
    (∀ x : JSValue, jsonapifyViaFindPlain (.arr [x]) opts path svc = .obj [("data", .arr [])]) ∧
    jsonapifyViaFindPlain (.arr []) opts path svc = .obj [("data", .arr [])] ∧
    jsonapifyViaFindPlain (.obj []) opts path svc = .obj [("data", .arr [])] := by
  refine ⟨?_, ?_, ?_, rfl, rfl⟩
  · intro xs h
    simp [jsonapifyViaFindPlain, isArray, h]
  · intro fs h
    have hlen : 0 < fs.length := List.length_pos.mpr h
    simp [jsonapifyViaFindPlain, isArray, objFieldsOrNil, hlen]
  · intro x
    rfl

/-- Witness for C4 (amended) at concrete inputs: a two-element sequence
maps both elements and a one-field record wraps one resource. -/
theorem jsonapifyViaFindPlain_cases_witness :
    jsonapifyViaFindPlain (.arr [.obj [("x", .num 1)], .obj [("x", .num 2)]])
        ⟨some "x", none⟩ "w" (.str "svc") =
      .obj [("data", .arr ([.obj [("x", .num 1)], .obj [("x", .num 2)]].map
        (fun item => serializePlainObject item ⟨some "x", none⟩ "w" (.str "svc"))))] ∧
    jsonapifyViaFindPlain (.obj [("x", .num 1)]) ⟨some "x", none⟩ "w" (.str "svc") =
      .obj [("data", .arr [serializePlainObject (.obj [("x", .num 1)]) ⟨some "x", none⟩ "w" (.str "svc")])] :=
  ⟨(jsonapifyViaFindPlain_cases ⟨some "x", none⟩ "w" (.str "svc")).1
     [.obj [("x", .num 1)], .obj [("x", .num 2)]] (by decide),
   ((jsonapifyViaFindPlain_cases ⟨some "x", none⟩ "w" (.str "svc")).2.1
     [("x", .num 1)] (List.cons_ne_nil _ _))⟩

/-- Counterexample to C4 as stated: a single-element input sequence yields
the empty `data` sequence, not a one-element sequence wrapping one
serialized resource (the one-element branch requires a non-array input). -/
theorem jsonapifyViaFindPlain_counterexample :
    jsonapifyViaFindPlain (.arr [.obj [("x", .num 1)]]) ⟨none, none⟩ "w" (.str "svc") =
      .obj [("data", .arr [])] ∧
    JSValue.arr ([] : List JSValue) ≠
      .arr [serializePlainObject (.obj [("x", .num 1)]) ⟨none, none⟩ "w" (.str "svc")] := by
  refine ⟨rfl, ?_⟩
  intro h
  simp at h

/-! Identifier selection in the plain-object serializer: claim C10. -/

/-- C10 (amended): whenever `identifierKey` is supplied and non-empty, the
resource id is taken unconditionally from the record at that key (the
absent value when the field is missing), `links.self` is built from that
value, and the content hash is used only when the option is unset.  The
non-emptiness is required: the source tests `if (options.identifierKey)` by
truthiness, so an empty-string option also falls back to the hash. -/
theorem serializePlainObject_identifierKey (item : JSValue) (opts : SerializerOpts)
    (path : String) (svc : JSValue) (k : String)
    (hk : opts.identifierKey = some k) (hne : k ≠ "") :
    jsGet (serializePlainObject item opts path svc) "id" = jsGet item k ∧
    jsGet (serializePlainObject item opts path svc) "links" =
      .obj [("self", .str ("/" ++ path ++ "/" ++ jsToString (jsGet item k)))] ∧
    (∀ opts2 : SerializerOpts, opts2.identifierKey = none →
      jsGet (serializePlainObject item opts2 path svc) "id" = .str (generateFauxId item)) := by
  refine ⟨?_, ?_, ?_⟩
  · simp [serializePlainObject, hk, hne, jsGet, lookupField]
  · simp [serializePlainObject, hk, hne, jsGet, lookupField]
  · intro opts2 h2
    simp [serializePlainObject, h2, jsGet, lookupField]

/-- Witness for C10 (amended): with `identifierKey = uuid` and a record
lacking a `uuid` field, the id is the absent value and `links.self` ends in
`/undefined`; with the option unset the id is the content hash. -/
theorem serializePlainObject_identifierKey_witness :
    jsGet (serializePlainObject (.obj [("name", .str "a")]) ⟨some "uuid", none⟩ "things" (.str "svc")) "id" = .undefined ∧
    jsGet (serializePlainObject (.obj [("name", .str "a")]) ⟨some "uuid", none⟩ "things" (.str "svc")) "links" =
      .obj [("self", .str "/things/undefined")] ∧
    jsGet (serializePlainObject (.obj [("name", .str "a")]) ⟨none, none⟩ "things" (.str "svc")) "id" =
      .str (generateFauxId (.obj [("name", .str "a")])) :=
  ⟨(serializePlainObject_identifierKey (.obj [("name", .str "a")]) ⟨some "uuid", none⟩
      "things" (.str "svc") "uuid" rfl (by decide)).1.trans rfl,
   (serializePlainObject_identifierKey (.obj [("name", .str "a")]) ⟨some "uuid", none⟩
      "things" (.str "svc") "uuid" rfl (by decide)).2.1.trans rfl,
   (serializePlainObject_identifierKey (.obj [("name", .str "a")]) ⟨some "uuid", none⟩
      "things" (.str "svc") "uuid" rfl (by decide)).2.2 ⟨none, none⟩ rfl⟩

/-- Counterexample to C10 as stated: a supplied but empty `identifierKey`
is falsy in JS, so the id falls back to the content hash instead of the
record field at the empty key (which would be the absent value). -/
theorem serializePlainObject_emptyKey_counterexample :
    jsGet (serializePlainObject (.obj [("x", .num 1)]) ⟨some "", none⟩ "w" (.str "svc")) "id" =
      .str (generateFauxId (.obj [("x", .num 1)])) ∧
    jsGet (.obj [("x", .num 1)]) "" = .undefined ∧
    JSValue.str (generateFauxId (.obj [("x", .num 1)])) ≠ .undefined :=
  ⟨rfl, rfl, fun h => JSValue.noConfusion h⟩

/-! Shape of the single-record get path: claim C8. -/

/-- The serializer attribute fold over a string record is empty: every
attribute read on a string yields `undefined` and is skipped. -/
theorem attrFold_str (s : String) (al : List String) :
    al.foldl (fun acc a =>
      match jsGet (JSValue.str s) a with
      | .undefined => acc
      | v => objSetList acc a v) [] = [] := by
  induction al with
  | nil => rfl
  | cons x rest ih =>
      rw [List.foldl_cons]
      exact ih

/-- Assembling a document over a string record (the shape `jsonapifyViaGet`
produces after `JSON.stringify`): the type survives, the id and every
attribute read back `undefined`. -/
theorem assembleDocument_str (s : String) (model : Model) (u : String) :
    assembleDocument (.str s) [] model u =
      { document := .obj [("type", .str model.name), ("id", .undefined), ("attributes", .obj [])],
        links := .obj [("self", .str ("/" ++ u))],
        related := none } := by
  have h : serializeResource model.name (.str s) (serializerAttributes model) =
      .obj [("type", .str model.name), ("id", .undefined), ("attributes", .obj [])] := by
    rw [show serializeResource model.name (.str s) (serializerAttributes model) =
      .obj [("type", .str model.name), ("id", jsGet (.str s) "id"),
        ("attributes", .obj ((serializerAttributes model).foldl (fun acc a =>
          match jsGet (JSValue.str s) a with
          | .undefined => acc
          | v => objSetList acc a v) []))] from rfl]
    rw [attrFold_str]
    rfl
  rw [show assembleDocument (.str s) [] model u =
    { document := hoistRelationships (serializeResource model.name (.str s) (serializerAttributes model)),
      links := JSValue.obj [("self", .str ("/" ++ u))],
      related := (none : Option (List JSValue)) } from rfl]
  rw [h]
  rfl

/-- C8 (amended): a get-style record with no associations (an `$options`
context with an empty include list) produces
`(data: (type, id, attributes, links), included: undefined)`: `data.links`
carries exactly `self` and `parent` (the top-level serializer links are
always truthy, so the `parent` link is always added), the `self` URL ends
in `/undefined` (line 340 stringifies the record before serialization, so
the id read on the string is `undefined`), there is no `relationships` key
anywhere, and the `included` key is assigned `undefined` rather than
removed (the length test on `undefined` short-circuits, and JSON output
drops the key). -/
theorem jsonapifyViaGet_shape (record : JSValue) (model : Model) (path : String) :
    jsonapifyViaGet record (some ⟨some []⟩) model path =
      .ok (.obj [("data", .obj [("type", .str model.name), ("id", .undefined),
                    ("attributes", .obj []),
                    ("links", .obj [("self", .str ("/" ++ (path ++ "/" ++ "undefined"))),
                                    ("parent", .str ("/" ++ model.name))])]),
                 ("included", .undefined)]) := by
  have hrfl : jsonapifyViaGet record (some ⟨some []⟩) model path =
      Except.ok ((fun serialized : JsonapifyResult =>
        let result0 : JSValue :=
          .obj [("data", serialized.document),
                ("included", match serialized.related with
                             | some rel => .arr rel
                             | none => .undefined)]
        let result1 :=
          if truthy (jsGet result0 "included")
              && decide ((match jsGet result0 "included" with
                          | .arr xs => xs.length
                          | _ => 0) = 0) then
            objDelete result0 "included"
          else result0
        let result2 :=
          if truthy serialized.links then
            let dataWithLinks := objSet (jsGet result1 "data") "links" serialized.links
            let dataWithParent := objSet dataWithLinks "links"
              (objSet (jsGet dataWithLinks "links") "parent" (.str ("/" ++ model.name)))
            objSet result1 "data" dataWithParent
          else result1
        createMetadata result2)
       (assembleDocument (.str (jsonStringify record)) [] model
         (path ++ "/" ++ jsToString (jsGet (.str (jsonStringify record)) "id")))) := rfl
  rw [hrfl, assembleDocument_str]
  rfl

/-- A conventional get-path model for the counterexample. -/
def getModel : Model := ⟨"topics", [("id", ⟨true⟩), ("name", ⟨false⟩)]⟩

/-- Counterexample to C8 as stated: the get path always attaches a `parent`
link next to `self` on `data.links`, so `data.links` never contains only
`self`. -/
theorem jsonapifyViaGet_counterexample :
    (jsonapifyViaGet (.obj [("id", .num 1), ("name", .str "topic-1")]) (some ⟨some []⟩)
        getModel "topics").map
      (fun r => objHasKey (jsGet (jsGet r "data") "links") "parent") = .ok true := rfl

/-! Relationship resolution and malformed embedded values: claim C7. -/

/-- Deleting one key does not change the value found at another. -/
theorem lookupField_objDeleteList_other (fs : List (String × JSValue)) (k k' : String)
    (h : k' ≠ k) :
    lookupField (objDeleteList fs k) k' = lookupField fs k' := by
  induction fs with
  | nil => rfl
  | cons p rest ih =>
      obtain ⟨a, b⟩ := p
      by_cases ha : a = k
      · subst ha
        simp [objDeleteList, lookupField, Ne.symm h, ih]
      · by_cases ha' : a = k'
        · subst ha'
          simp [objDeleteList, lookupField, h, ih]
        · simp [objDeleteList, lookupField, ha, ha', ih]

/-- Value-level read-after-set at the same key. -/
theorem jsGet_objSet_self (fs : List (String × JSValue)) (k : String) (v : JSValue) :
    jsGet (objSet (.obj fs) k v) k = v :=
  lookupField_objSetList_self fs k v

/-- Value-level read-after-set at another key. -/
theorem jsGet_objSet_other (fs : List (String × JSValue)) (k k' : String) (v : JSValue)
    (h : k' ≠ k) :
    jsGet (objSet (.obj fs) k v) k' = jsGet (.obj fs) k' :=
  lookupField_objSetList_other fs k k' v h

/-- Value-level read-after-delete at another key. -/
theorem jsGet_objDelete_other (fs : List (String × JSValue)) (k k' : String)
    (h : k' ≠ k) :
    jsGet (objDelete (.obj fs) k) k' = jsGet (.obj fs) k' :=
  lookupField_objDeleteList_other fs k k' h

/-- The merged relationships object carries the new entry at the
relationship name. -/
theorem jsGet_mergeRelationships (ex : JSValue) (rn : String) (rd : JSValue) :
    jsGet (mergeRelationships ex rn rd) rn = .obj [("data", rd)] :=
  lookupField_objSetList_self _ _ _

/-- Behaviour of the shared tail of the relationship parser on an object
parent: a null reference leaves the `relationships` field untouched apart
from the two deletions; a non-null reference records the entry under the
relationship name. -/
theorem parseRelationshipsFinish_relLookup (inc : IncludeDesc) (rn : String)
    (relData : JSValue) (L : List (String × JSValue)) (incd2 : List JSValue)
    (hasf : inc.asField ≠ "relationships")
    (hfk : inc.association.foreignKey ≠ "relationships") :
    (isNull relData = true →
      jsGet (parseRelationshipsFinish inc rn relData (.obj L) incd2).1 "relationships" =
        jsGet (.obj L) "relationships") ∧
    (isNull relData = false →
      jsGet (jsGet (parseRelationshipsFinish inc rn relData (.obj L) incd2).1 "relationships") rn =
        .obj [("data", relData)]) := by
  constructor
  · intro hn
    simp only [parseRelationshipsFinish, hn, if_true]
    exact (jsGet_objDelete_other _ _ _ (Ne.symm hasf)).trans
      (jsGet_objDelete_other _ _ _ (Ne.symm hfk))
  · intro hn
    simp only [parseRelationshipsFinish, hn, Bool.false_eq_true, if_false]
    rw [show objDelete (objDelete (JSValue.obj L) inc.association.foreignKey) inc.asField =
      .obj (objDeleteList (objDeleteList L inc.association.foreignKey) inc.asField) from rfl]
    rw [jsGet_objSet_self]
    exact jsGet_mergeRelationships _ _ _

/-- Whether an `Except` outcome is a success. -/
def exceptIsOk {e a : Type} : Except e a → Bool
  | .ok _ => true
  | .error _ => false

/-- C7 (amended): the resolver maps a sequence-valued embedded field to the
sequence of references, a (non-null) object value to one reference, and
every other value (absent, null, primitive) to the null reference; a
relationship entry is recorded under the relationship name only when the
reference is non-null, and the `relationships` field is otherwise left
unchanged.  However an absent (`undefined`) embedded value makes the parser
throw a TypeError (line 118 reads `.id` on it) instead of proceeding — the
claim as stated says no exception is raised for absent values. -/
theorem parseRelationships_reference (inc : IncludeDesc) (fs : List (String × JSValue))
    (incd : List JSValue)
    (hasf : inc.asField ≠ "relationships")
    (hfk : inc.association.foreignKey ≠ "relationships") :
    (∀ xs : List JSValue, jsGet (.obj fs) inc.asField = .arr xs →
      createRelationshipObject inc (.obj fs) = .arr (xs.map (fun r => relatedItemFor inc r))) ∧
    (∀ gs : List (String × JSValue), jsGet (.obj fs) inc.asField = .obj gs →
      createRelationshipObject inc (.obj fs) = relatedItemFor inc (.obj gs)) ∧
    (isArray (jsGet (.obj fs) inc.asField) = false →
      isObj (jsGet (.obj fs) inc.asField) = false →
      createRelationshipObject inc (.obj fs) = .null) ∧
    (jsGet (.obj fs) inc.asField = .undefined →
      parseRelationshipsStep inc (.obj fs) incd =
        .error "TypeError: cannot read property id of undefined") ∧
    (jsGet (.obj fs) inc.asField ≠ .undefined →
      exceptIsOk (parseRelationshipsStep inc (.obj fs) incd) = true ∧
      ∀ res : JSValue × List JSValue,
        parseRelationshipsStep inc (.obj fs) incd = .ok res →
        (createRelationshipObject inc (.obj fs) = .null →
          jsGet res.1 "relationships" = jsGet (.obj fs) "relationships") ∧
        (createRelationshipObject inc (.obj fs) ≠ .null →
          jsGet (jsGet res.1 "relationships")
            (if inc.association.underscored then inc.asField.replace "_" "-" else inc.asField) =
            .obj [("data", createRelationshipObject inc (.obj fs))])) := by
  refine ⟨?_, ?_, ?_, ?_, ?_⟩
  · intro xs hv
    simp [createRelationshipObject, hv, truthy, isArray]
  · intro gs hv
    simp [createRelationshipObject, hv, truthy, isArray, typeofObject]
  · intro h1 h2
    cases hv : jsGet (.obj fs) inc.asField with
    | undefined => simp [createRelationshipObject, hv, truthy, isArray, typeofObject]
    | null => simp [createRelationshipObject, hv, truthy, isArray, typeofObject]
    | bool b => simp [createRelationshipObject, hv, truthy, isArray, typeofObject]
    | num n => simp [createRelationshipObject, hv, truthy, isArray, typeofObject]
    | str s => simp [createRelationshipObject, hv, truthy, isArray, typeofObject]
    | arr xs => rw [hv] at h1; simp [isArray] at h1
    | obj gs => rw [hv] at h2; simp [isObj] at h2
  · intro hv
    simp only [parseRelationshipsStep, hv]
  · intro hne
    cases hv : jsGet (.obj fs) inc.asField with
    | undefined => exact absurd hv hne
    | null =>
        have hrel : createRelationshipObject inc (.obj fs) = .null := by
          simp [createRelationshipObject, hv, truthy]
        constructor
        · simp only [parseRelationshipsStep, hv, exceptIsOk]
        · intro res hres
          simp only [parseRelationshipsStep, hv] at hres
          obtain rfl := Except.ok.inj hres
          refine ⟨fun _ => ?_, fun h => absurd hrel h⟩
          exact (parseRelationshipsFinish_relLookup inc _ _ fs _ hasf hfk).1
            (by rw [hrel]; rfl)
    | bool b =>
        have hrel : createRelationshipObject inc (.obj fs) = .null := by
          simp [createRelationshipObject, hv, truthy, isArray, typeofObject]
        constructor
        · simp only [parseRelationshipsStep, hv, exceptIsOk]
        · intro res hres
          simp only [parseRelationshipsStep, hv] at hres
          obtain rfl := Except.ok.inj hres
          refine ⟨fun _ => ?_, fun h => absurd hrel h⟩
          exact ((parseRelationshipsFinish_relLookup inc _ _
              (objSetList fs inc.asField (objDelete (.bool b) inc.association.foreignKey))
              _ hasf hfk).1 (by rw [hrel]; rfl)).trans
            (jsGet_objSet_other fs inc.asField "relationships" _ (Ne.symm hasf))
    | num n =>
        have hrel : createRelationshipObject inc (.obj fs) = .null := by
          simp [createRelationshipObject, hv, truthy, isArray, typeofObject]
        constructor
        · simp only [parseRelationshipsStep, hv, exceptIsOk]
        · intro res hres
          simp only [parseRelationshipsStep, hv] at hres
          obtain rfl := Except.ok.inj hres
          refine ⟨fun _ => ?_, fun h => absurd hrel h⟩
          exact ((parseRelationshipsFinish_relLookup inc _ _
              (objSetList fs inc.asField (objDelete (.num n) inc.association.foreignKey))
              _ hasf hfk).1 (by rw [hrel]; rfl)).trans
            (jsGet_objSet_other fs inc.asField "relationships" _ (Ne.symm hasf))
    | str s =>
        have hrel : createRelationshipObject inc (.obj fs) = .null := by
          simp [createRelationshipObject, hv, truthy, isArray, typeofObject]
        constructor
        · simp only [parseRelationshipsStep, hv, exceptIsOk]
        · intro res hres
          simp only [parseRelationshipsStep, hv] at hres
          obtain rfl := Except.ok.inj hres
          refine ⟨fun _ => ?_, fun h => absurd hrel h⟩
          exact ((parseRelationshipsFinish_relLookup inc _ _
              (objSetList fs inc.asField (objDelete (.str s) inc.association.foreignKey))
              _ hasf hfk).1 (by rw [hrel]; rfl)).trans
            (jsGet_objSet_other fs inc.asField "relationships" _ (Ne.symm hasf))
    | arr xs =>
        have hrel : createRelationshipObject inc (.obj fs) =
            .arr (xs.map (fun r => relatedItemFor inc r)) := by
          simp [createRelationshipObject, hv, truthy, isArray]
        constructor
        · simp only [parseRelationshipsStep, hv, exceptIsOk]
        · intro res hres
          simp only [parseRelationshipsStep, hv] at hres
          obtain rfl := Except.ok.inj hres
          refine ⟨fun h => ?_, fun _ => ?_⟩
          · rw [hrel] at h
            exact absurd h (fun hh => JSValue.noConfusion hh)
          · exact (parseRelationshipsFinish_relLookup inc _ _
              (objSetList fs inc.asField (objDelete (.arr xs) inc.association.foreignKey))
              _ hasf hfk).2 (by rw [hrel]; rfl)
    | obj gs =>
        have hrel : createRelationshipObject inc (.obj fs) =
            relatedItemFor inc (.obj gs) := by
          simp [createRelationshipObject, hv, truthy, isArray, typeofObject]
        constructor
        · simp only [parseRelationshipsStep, hv, exceptIsOk]
        · intro res hres
          simp only [parseRelationshipsStep, hv] at hres
          obtain rfl := Except.ok.inj hres
          refine ⟨fun h => ?_, fun _ => ?_⟩
          · rw [hrel] at h
            exact absurd h (fun hh => JSValue.noConfusion hh)
          · exact (parseRelationshipsFinish_relLookup inc _ _
              (objSetList fs inc.asField (objDelete (.obj gs) inc.association.foreignKey))
              _ hasf hfk).2 (by rw [hrel]; rfl)

/-- A concrete to-one include descriptor for the C7 witness and
counterexample. -/
def authorInc : IncludeDesc :=
  ⟨⟨"id", "authorId", false⟩, ⟨"authors", [("id", ⟨true⟩), ("nm", ⟨false⟩)]⟩, "author"⟩

/-- Witness for C7 (amended): a concrete object-valued embedded field
resolves to one reference, and the resolver succeeds on a concrete
null-valued field without touching the parent relationships. -/
theorem parseRelationships_reference_witness :
    createRelationshipObject authorInc (.obj [("author", .obj [("id", .num 5)])]) =
      relatedItemFor authorInc (.obj [("id", .num 5)]) ∧
    createRelationshipObject authorInc (.obj [("author", .null)]) = .null :=
  ⟨(parseRelationships_reference authorInc [("author", .obj [("id", .num 5)])] []
      (by decide) (by decide)).2.1 [("id", .num 5)] rfl,
   (parseRelationships_reference authorInc [("author", .null)] []
      (by decide) (by decide)).2.2.1 rfl rfl⟩

/-- Counterexample to C7 as stated: with the association field absent from
the parent, the resolver throws (line 118 reads `.id` of `undefined`)
instead of proceeding with a null reference. -/
theorem parseRelationships_counterexample :
    jsGet (.obj [("title", .str "t")]) authorInc.asField = .undefined ∧
    parseRelationshipsStep authorInc (.obj [("title", .str "t")]) [] =
      .error "TypeError: cannot read property id of undefined" := ⟨rfl, rfl⟩
